import Mathlib

/-!
# A verification model of the hybrid document search engine

This file is a shallow embedding of `src/agents/search/search_agent.js`
(class `SearchAgent`), the hybrid text/vector document search and ranking
engine, together with proofs about its behaviour.

Modeling conventions:

* JS strings are modelled as `List Char` (abbreviated `Str`).  The ASCII
  behaviour of the character classes `\w`, `\s` and of `toLowerCase` is
  modelled exactly; the engine's regular expressions are ASCII-oriented.
* JS numbers are modelled as exact rationals (configuration) and reals
  (scores), ignoring IEEE-754 rounding.  `NaN` is modelled by `Option ℝ`
  (`none` = NaN) in score positions, where the source can produce it via
  `0/0`; JS comparison semantics (`NaN >= x` is false, a `NaN` comparator
  result is treated like `0` by `Array.prototype.sort`) are modelled on
  `Option ℝ` explicitly.
* `Array.prototype.sort` with a consistent comparator is a stable sort;
  it is modelled by a stable insertion sort (`sortDesc`).  For consistent
  comparators every stable sort produces the same list, so this is exact.
* The document store (MongoDB) is an external collaborator.  A store is a
  snapshot `DB`: the list of documents of the `agent_results` collection,
  the result of the vector-index probe, and the response the store would
  give to a delegated `$vectorSearch` aggregate (whose scoring is native
  to the store).  `find(q).limit(n)` is `(docs.filter match).take n`.
  The `$regex` arm of the text query is modelled as case-insensitive
  literal substring containment (exact for queries without regex
  metacharacters — no claim depends on candidate selection); the keyword
  `\b…\b` regexes contain only `\w` characters and are modelled exactly.
* Timestamps (`created_at`, date-range filters) are rationals.
* `Promise.all` over the per-document embedding backfill rejects as soon
  as one encode rejects; it is modelled by the fail-fast `mapME` (first
  failure in list order).
* The vectorizer and the store mutation channel: the in-memory vector
  search threads the store state explicitly (`… × DB` result) so that
  store writes — which the source never performs — are observable.
-/

abbrev Str := List Char

/-- JS `\w` character class: `[A-Za-z0-9_]`. -/
def isWordChar (c : Char) : Bool := c.isAlphanum || c == '_'

/-- JS `\s` character class (ASCII part): space, tab, LF, CR, VT, FF. -/
def jsIsSpace (c : Char) : Bool :=
  c == ' ' || c == '\t' || c == '\n' || c == '\r' || c == '\x0b' || c == '\x0c'

/-- Sentence terminators of `split(/[.!?]+/)`. -/
def isSentenceSep (c : Char) : Bool := c == '.' || c == '!' || c == '?'

/-- JS `String.prototype.toLowerCase` (ASCII behaviour). -/
def lowerStr (s : Str) : Str := s.map Char.toLower

/-- JS `String.prototype.includes`: `needle` occurs as a contiguous
substring of `hay`. -/
def strContains (hay needle : Str) : Bool :=
  hay.tails.any (fun s => needle.isPrefixOf s)

/-- JS `String.prototype.trim` (whitespace from both ends). -/
def trimStr (s : Str) : Str :=
  ((s.dropWhile jsIsSpace).reverse.dropWhile jsIsSpace).reverse

/-- Worker for `jsSplitRuns`: `inRun` records whether the previous
character was a separator (so that a run of separators yields a single
split point), `cur` is the current fragment, reversed. -/
def jsSplitGo (sep : Char → Bool) : Bool → Str → Str → List Str
  | _, cur, [] => [cur.reverse]
  | inRun, cur, c :: cs =>
    if sep c then
      if inRun then jsSplitGo sep true [] cs
      else cur.reverse :: jsSplitGo sep true [] cs
    else jsSplitGo sep false (c :: cur) cs

/-- JS `String.prototype.split` on a regex `/X+/` for a character class
`X` given by `sep`: splits on maximal runs of separator characters; a
leading (trailing) run contributes a leading (trailing) empty fragment,
exactly as in JS. -/
def jsSplitRuns (sep : Char → Bool) (s : Str) : List Str :=
  jsSplitGo sep false [] s

/-- The keyword extraction of `processQuery` (search_agent.js:78–81):
`query.toLowerCase().replace(/[^\w\s]/g, '').split(/\s+/)` filtered to
tokens of length `> 2`. -/
def keywordsOf (query : Str) : List Str :=
  (jsSplitRuns jsIsSpace
      ((lowerStr query).filter (fun c => isWordChar c || jsIsSpace c))).filter
    (fun w => w.length > 2)

/-! ## The entity-extraction regular expressions

`processQuery` matches three fixed patterns (search_agent.js:85–89):
an ISO-like date `/\b\d{4}-\d{2}-\d{2}\b/`, a person name
`/\b[A-Z][a-z]+ [A-Z][a-z]+\b/` and an organization
`/\b[A-Z][a-z]+ (Inc|Corp|LLC|Ltd)\b/`.  `String.match` without the `g`
flag returns the first (leftmost) match together with its capture
groups; the patterns are deterministic (each `+` is followed by a
character its class excludes), so maximal munch is exact. -/

/-- `\b` holds after the match if the rest is empty or starts with a
non-word character. -/
def boundaryAfterOk : Str → Bool
  | [] => true
  | c :: _ => !isWordChar c

/-- `\b` holds before the match if it is at the start or the previous
character is a non-word character. -/
def boundaryBeforeOk : Option Char → Bool
  | none => true
  | some c => !isWordChar c

/-- Exactly `n` characters satisfying `p`; returns them and the rest. -/
def takeCount (p : Char → Bool) : ℕ → Str → Option (Str × Str)
  | 0, s => some ([], s)
  | _ + 1, [] => none
  | n + 1, c :: cs =>
    if p c then (takeCount p n cs).map (fun x => (c :: x.1, x.2)) else none

/-- Greedy `[a-z]+`: the maximal nonempty lowercase-letter prefix. -/
def lowersPlus (s : Str) : Option (Str × Str) :=
  let ls := s.takeWhile Char.isLower
  if ls.isEmpty then none else some (ls, s.drop ls.length)

/-- A literal string followed by the rest. -/
def tryLit (lit : Str) (s : Str) : Option Str :=
  if lit.isPrefixOf s then some (s.drop lit.length) else none

/-- `\d{4}-\d{2}-\d{2}\b` at the current position. -/
def dateAt (s : Str) : Option Str :=
  match takeCount Char.isDigit 4 s with
  | none => none
  | some (y, r1) =>
    match r1 with
    | '-' :: r2 =>
      match takeCount Char.isDigit 2 r2 with
      | none => none
      | some (m, r3) =>
        match r3 with
        | '-' :: r4 =>
          match takeCount Char.isDigit 2 r4 with
          | none => none
          | some (d, r5) =>
            if boundaryAfterOk r5 then some (y ++ '-' :: m ++ '-' :: d) else none
        | _ => none
    | _ => none

/-- `[A-Z][a-z]+ [A-Z][a-z]+\b` at the current position. -/
def personAt : Str → Option Str
  | [] => none
  | c :: cs =>
    if c.isUpper then
      match lowersPlus cs with
      | none => none
      | some (l1, r1) =>
        match r1 with
        | ' ' :: d :: ds =>
          if d.isUpper then
            match lowersPlus ds with
            | none => none
            | some (l2, r3) =>
              if boundaryAfterOk r3 then some (c :: l1 ++ ' ' :: d :: l2) else none
          else none
        | _ => none
    else none

/-- The last alternative of `(Inc|Corp|LLC|Ltd)\b`: `Ltd`. -/
def orgSuffixTail3 (s : Str) : Option (Str × Str) :=
  match tryLit "Ltd".toList s with
  | some r => if boundaryAfterOk r then some ("Ltd".toList, r) else none
  | none => none

/-- Alternatives after `Corp`. -/
def orgSuffixTail2 (s : Str) : Option (Str × Str) :=
  match tryLit "LLC".toList s with
  | some r => if boundaryAfterOk r then some ("LLC".toList, r) else orgSuffixTail3 s
  | none => orgSuffixTail3 s

/-- Alternatives after `Inc`. -/
def orgSuffixTail1 (s : Str) : Option (Str × Str) :=
  match tryLit "Corp".toList s with
  | some r => if boundaryAfterOk r then some ("Corp".toList, r) else orgSuffixTail2 s
  | none => orgSuffixTail2 s

/-- `(Inc|Corp|LLC|Ltd)\b`: the alternatives are tried in regex order;
returns the matched alternative and the rest. -/
def orgSuffixAt (s : Str) : Option (Str × Str) :=
  match tryLit "Inc".toList s with
  | some r => if boundaryAfterOk r then some ("Inc".toList, r) else orgSuffixTail1 s
  | none => orgSuffixTail1 s

/-- `[A-Z][a-z]+ (Inc|Corp|LLC|Ltd)\b` at the current position; returns
the full match and the capture group. -/
def orgAt : Str → Option (Str × Str)
  | [] => none
  | c :: cs =>
    if c.isUpper then
      match lowersPlus cs with
      | none => none
      | some (l1, r1) =>
        match r1 with
        | ' ' :: r2 =>
          match orgSuffixAt r2 with
          | none => none
          | some (suf, _) => some (c :: l1 ++ ' ' :: suf, suf)
        | _ => none
    else none

/-- Leftmost match: try each position from the left, tracking the
previous character for `\b`. -/
def scanMatch (tryAt : Option Char → Str → Option α) : Option Char → Str → Option α
  | prev, [] => tryAt prev []
  | prev, c :: cs =>
    match tryAt prev (c :: cs) with
    | some m => some m
    | none => scanMatch tryAt (some c) cs

/-- `query.match(/\b\d{4}-\d{2}-\d{2}\b/)`. -/
def matchDate (q : Str) : Option Str :=
  scanMatch (fun prev s => if boundaryBeforeOk prev then dateAt s else none) none q

/-- `query.match(/\b[A-Z][a-z]+ [A-Z][a-z]+\b/)`. -/
def matchPerson (q : Str) : Option Str :=
  scanMatch (fun prev s => if boundaryBeforeOk prev then personAt s else none) none q

/-- `query.match(/\b[A-Z][a-z]+ (Inc|Corp|LLC|Ltd)\b/)`. -/
def matchOrg (q : Str) : Option (Str × Str) :=
  scanMatch (fun prev s => if boundaryBeforeOk prev then orgAt s else none) none q

/-- Entity types produced by `processQuery`. -/
inductive EType where
  | DATE
  | PERSON
  | ORGANIZATION
deriving DecidableEq

/-- A typed entity span `{ text, type }`. -/
structure Entity where
  text : Str
  type : EType
deriving DecidableEq

/-- Entity assembly (search_agent.js:91–98).  `match` without `g`
returns `[full, …groups]` and the source pushes one entity per array
element, so the organization pattern contributes the full match *and*
the captured suffix. -/
def extractEntities (query : Str) : List Entity :=
  (match matchDate query with
    | some m => [⟨m, EType.DATE⟩]
    | none => [])
  ++ (match matchPerson query with
    | some m => [⟨m, EType.PERSON⟩]
    | none => [])
  ++ (match matchOrg query with
    | some p => [⟨p.1, EType.ORGANIZATION⟩, ⟨p.2, EType.ORGANIZATION⟩]
    | none => [])

/-- Query intents (search_agent.js:100–110). -/
inductive Intent where
  | INFORMATION
  | HOW_TO
  | DEFINITION
  | TIME
  | LOCATION
deriving DecidableEq

/-- Intent detection: trigger substrings in fixed priority order. -/
def intentOf (query : Str) : Intent :=
  if strContains (lowerStr query) "how".toList then Intent.HOW_TO
  else if strContains (lowerStr query) "what".toList then Intent.DEFINITION
  else if strContains (lowerStr query) "when".toList then Intent.TIME
  else if strContains (lowerStr query) "where".toList then Intent.LOCATION
  else Intent.INFORMATION

/-! ## Data model -/

/-- JS number in a score position: `none` is `NaN`. -/
abbrev JsNum := Option ℝ

/-- The `output.analysis` sub-document: `entities` is `none` when the
field is absent (an empty array is present, hence truthy, in JS). -/
structure AnalysisOut where
  entities : Option (List Entity)

/-- The `output` sub-document of a stored document.  `extracted_text`
is `none` when absent; note that in JS an *empty* string is falsy, which
the engine's truthiness tests observe. -/
structure DocOutput where
  extracted_text : Option Str
  analysis : Option AnalysisOut

/-- A document record of the `agent_results` collection. -/
structure StoredDoc where
  _id : ℕ
  agent : Str
  output : DocOutput
  vector_embedding : Option (List ℝ)
  metadata : Str
  created_at : ℚ

/-- A snapshot of the document store (external collaborator).
`hasVectorIndex` is the outcome of the `listCollections` probe
(search_agent.js:216–220); `vectorSearchResults` is the response the
store would give to the delegated `$vectorSearch` aggregate
(search_agent.js:264–269), whose scores are native to the store. -/
structure DB where
  docs : List StoredDoc
  hasVectorIndex : Bool
  vectorSearchResults : List (StoredDoc × ℝ)

/-- Optional request filters (`input.filters`). -/
structure Filters where
  agent : Option Str
  dateRange : Option (ℚ × ℚ)

/-- The request input.  `query` is `none` when the field is missing. -/
structure SearchInput where
  query : Option Str
  filters : Option Filters

/-- The pluggable encoder capability: `encode(text)` resolves to a
vector or rejects with a message. -/
abbrev Vectorizer := Str → Except Str (List ℝ)

/-- Construction options for `SearchAgent` (`options`). -/
structure AgentOptions where
  db : Option DB := none
  useVectorSearch : Option Bool := none
  vectorizer : Option Vectorizer := none
  maxResults : Option ℕ := none
  minScore : Option ℚ := none

/-- The constructed engine state (constructor, search_agent.js:12–25). -/
structure SearchAgent where
  db : Option DB
  useVectorSearch : Bool
  vectorizer : Option Vectorizer
  maxResults : ℕ
  minScore : ℚ

/-- The constructor: each `options.x || default` substitutes the default
for a missing *or falsy* provided value (for numbers, `0`). -/
def mkSearchAgent (options : AgentOptions) : SearchAgent where
  db := options.db
  useVectorSearch := (options.useVectorSearch).getD false
  vectorizer := options.vectorizer
  maxResults :=
    match options.maxResults with
    | some n => if n = 0 then 10 else n
    | none => 10
  minScore :=
    match options.minScore with
    | some q => if q = 0 then 1/2 else q
    | none => 1/2

/-- The processed query (output of `processQuery`). -/
structure ProcessedQuery where
  original : Str
  normalized : Str
  keywords : List Str
  entities : List Entity
  intent : Intent
  vector : Option (List ℝ)

/-- A raw scored candidate `{ ...doc, score }`. -/
structure Scored where
  doc : StoredDoc
  score : JsNum

/-- A snippet `{ text, score }` (snippet scores never divide, so they
cannot be NaN and are kept as exact rationals). -/
structure Snippet where
  text : Str
  score : ℚ

/-- A public result entry (built by `rankResults`). -/
structure RankedResult where
  id : ℕ
  agent : Str
  score : JsNum
  snippets : List Snippet
  metadata : Str
  created_at : ℚ

/-- Possible thrown errors of the engine. -/
inductive JsError where
  | dbRequired
  | vectorizerRequired
  | queryRequired
  | queryNotString
  | encodeFailed (msg : Str)
deriving DecidableEq

/-- The response of `_process`. -/
structure Response where
  query : Str
  processed_query : ProcessedQuery
  results : List RankedResult
  summary : Str
  total_results : ℕ
  search_type : Str

/-! ## JS comparison semantics on scores -/

/-- JS `x >= y` on numbers: false whenever either side is `NaN`. -/
noncomputable def jsGeB : JsNum → JsNum → Bool
  | some x, some y => decide (y ≤ x)
  | _, _ => false

/-- The ordering induced by the comparator `(a, b) => b - a` under
`Array.prototype.sort`: `a` need not be placed after `b` iff the
comparator result is `≤ 0` — and a `NaN` comparator result is treated
like `0` by the sort algorithm. -/
noncomputable def jsSortGeB : JsNum → JsNum → Bool
  | some x, some y => decide (y ≤ x)
  | _, _ => true

/-- Insert into a descending-sorted list, before the first element the
inserted one need not follow (stable). -/
def insertDesc (ge : α → α → Bool) (x : α) : List α → List α
  | [] => [x]
  | y :: ys => if ge x y then x :: y :: ys else y :: insertDesc ge x ys

/-- Stable descending sort: the model of `Array.prototype.sort` with a
comparator `(a, b) => key b - key a` (`ge a b` ⟺ the comparator is
`≤ 0` on `(a, b)`).  For a consistent comparator every stable sort
returns the same list, so the model is exact. -/
def sortDesc (ge : α → α → Bool) : List α → List α
  | [] => []
  | x :: xs => insertDesc ge x (sortDesc ge xs)

/-! ## Query processing and text search -/

/-- `processQuery` (search_agent.js:76–120).  The `vector` field invokes
the encoder on the *raw* query when a vectorizer is configured; an
encoder rejection propagates. -/
def processQuery (a : SearchAgent) (query : Str) : Except JsError ProcessedQuery :=
  match a.vectorizer with
  | none =>
    Except.ok
      { original := query, normalized := lowerStr query, keywords := keywordsOf query
        entities := extractEntities query, intent := intentOf query, vector := none }
  | some enc =>
    match enc query with
    | Except.error msg => Except.error (JsError.encodeFailed msg)
    | Except.ok v =>
      Except.ok
        { original := query, normalized := lowerStr query, keywords := keywordsOf query
          entities := extractEntities query, intent := intentOf query, vector := some v }

/-- The store's evaluation of the optional agent/date-range filters that
the engine adds to its queries (search_agent.js:144–155, 250–261,
288–299): exact agent match, inclusive `created_at` range. -/
def filterMatch (f : Option Filters) (d : StoredDoc) : Bool :=
  match f with
  | none => true
  | some ff =>
    (match ff.agent with
      | none => true
      | some a => d.agent == a)
    && (match ff.dateRange with
      | none => true
      | some r => decide (r.1 ≤ d.created_at) && decide (d.created_at ≤ r.2))

/-- `k` occurs in `t` delimited by word boundaries (`\b k \b` for a
keyword `k` consisting of `\w` characters only), at or after a position
with previous character `prev`. -/
def wordBoundedAt (k : Str) (prev : Option Char) : Str → Bool
  | [] => boundaryBeforeOk prev && k.isEmpty
  | c :: cs =>
    (boundaryBeforeOk prev && k.isPrefixOf (c :: cs)
        && boundaryAfterOk ((c :: cs).drop k.length))
      || wordBoundedAt k (some c) cs

/-- The keyword arm of the text query: `new RegExp('\\b' + k + '\\b', 'i')`
matched against the extracted text (case-insensitively: both sides are
lowercased; keywords are already lowercase). -/
def wordBoundedIn (k t : Str) : Bool := wordBoundedAt k none (lowerStr t)

/-- The store's evaluation of the `$or` text query built by
`performTextSearch` (search_agent.js:133–141): case-insensitive
substring match of the normalized query against `output.extracted_text`,
or any keyword as a whole word.  A document without the field matches
neither arm. -/
def textQueryMatch (pq : ProcessedQuery) (d : StoredDoc) : Bool :=
  match d.output.extracted_text with
  | none => false
  | some t => strContains (lowerStr t) pq.normalized || pq.keywords.any (fun k => wordBoundedIn k t)

/-- The entity term of `calculateTextScore` (search_agent.js:192–198):
up to `0.2`, scaled by the fraction of query entities whose text occurs
among the document's analyzed entities; only applied when the query has
entities and the document carries an `analysis.entities` field. -/
noncomputable def entityScore (result : StoredDoc) (pq : ProcessedQuery) : ℝ :=
  match result.output.analysis with
  | none => 0
  | some an =>
    match an.entities with
    | none => 0
    | some es =>
      if pq.entities.length > 0 then
        ((pq.entities.filter
            (fun e => (es.map (fun e2 => lowerStr e2.text)).contains (lowerStr e.text))).length : ℝ)
          / (pq.entities.length : ℝ) * (1/5)
      else 0

/-- `calculateTextScore` (search_agent.js:175–201).  When the document
has (truthy, i.e. nonempty) extracted text and the query has *no*
keywords, the source computes `0/0 = NaN`, which propagates through the
additions and `Math.min`; hence the `none` branch. -/
noncomputable def calculateTextScore (result : StoredDoc) (pq : ProcessedQuery) : JsNum :=
  let exact : ℝ :=
    match result.output.extracted_text with
    | some t => if t ≠ [] ∧ strContains (lowerStr t) pq.normalized then 1/2 else 0
    | none => 0
  match result.output.extracted_text with
  | some t =>
    if t ≠ [] then
      if pq.keywords = [] then none
      else
        some (min 1 (exact
          + ((pq.keywords.filter (fun k => strContains (lowerStr t) k)).length : ℝ)
              / (pq.keywords.length : ℝ) * (3/10)
          + entityScore result pq))
    else some (min 1 (exact + entityScore result pq))
  | none => some (min 1 (exact + entityScore result pq))

/-- `performTextSearch` (search_agent.js:129–167): the store evaluates
the `$or` query plus filters, capped at `maxResults`; each candidate is
scored by `calculateTextScore`. -/
noncomputable def performTextSearch (a : SearchAgent) (db : DB) (pq : ProcessedQuery)
    (input : SearchInput) : List Scored :=
  ((db.docs.filter (fun d => textQueryMatch pq d && filterMatch input.filters d)).take
      a.maxResults).map
    (fun d => { doc := d, score := calculateTextScore d pq })

/-! ## Vector search -/

/-- The dot product accumulated by the loop of
`calculateCosineSimilarity` (the loop runs over the common length, which
the guard has made equal). -/
def dotL (v1 v2 : List ℝ) : ℝ := (List.zipWith (fun x y => x * y) v1 v2).sum

/-- The squared magnitude accumulated by the same loop. -/
def magSq (v : List ℝ) : ℝ := (v.map (fun x => x * x)).sum

/-- The magnitude `Math.sqrt(Σ xᵢ²)`. -/
noncomputable def magL (v : List ℝ) : ℝ := Real.sqrt (magSq v)

/-- `calculateCosineSimilarity` (search_agent.js:335–358): `0` for a
missing vector or a length mismatch; `0` when either magnitude is zero;
otherwise `dot / (‖v1‖ · ‖v2‖)`. -/
noncomputable def calculateCosineSimilarity : Option (List ℝ) → Option (List ℝ) → ℝ
  | some v1, some v2 =>
    if v1.length ≠ v2.length then 0
    else if magL v1 = 0 ∨ magL v2 = 0 then 0
    else dotL v1 v2 / (magL v1 * magL v2)
  | _, _ => 0

/-- Fail-fast effectful map: the model of `Promise.all` over the
per-document backfill (first rejection in list order wins). -/
def mapME (f : α → Except ε β) : List α → Except ε (List β)
  | [] => Except.ok []
  | x :: xs =>
    match f x with
    | Except.error e => Except.error e
    | Except.ok y =>
      match mapME f xs with
      | Except.error e => Except.error e
      | Except.ok ys => Except.ok (y :: ys)

/-- The backfill step for one candidate (search_agent.js:307–314): keep
a document that already has a (truthy) embedding; otherwise encode its
extracted text (`|| ''`) and attach the result to the in-memory copy.
An encoder rejection rejects the whole `Promise.all`. -/
def backfillDoc (enc : Vectorizer) (doc : StoredDoc) : Except JsError StoredDoc :=
  match doc.vector_embedding with
  | some _ => Except.ok doc
  | none =>
    match enc (doc.output.extracted_text.getD []) with
    | Except.ok v => Except.ok { doc with vector_embedding := some v }
    | Except.error msg => Except.error (JsError.encodeFailed msg)

/-- `performInMemoryVectorSearch` (search_agent.js:283–327).  The store
state is threaded explicitly (second component of the result): the
source's only store operation here is the `find` that produces the
candidates — it issues no update, so the store comes back unchanged and
the computed embeddings live only on the in-memory copies. -/
noncomputable def performInMemoryVectorSearch (a : SearchAgent) (enc : Vectorizer) (db : DB)
    (pq : ProcessedQuery) (input : SearchInput) :
    Except JsError (List Scored × DB) :=
  let documents := (db.docs.filter (filterMatch input.filters)).take 1000
  match mapME (backfillDoc enc) documents with
  | Except.error e => Except.error e
  | Except.ok documentsWithVectors =>
    let scoredDocuments := documentsWithVectors.map
      (fun doc =>
        ({ doc := doc
           score := some (calculateCosineSimilarity pq.vector doc.vector_embedding) } : Scored))
    Except.ok
      ((sortDesc (fun r1 r2 => jsSortGeB r1.score r2.score)
          (scoredDocuments.filter (fun r => jsGeB r.score (some (a.minScore : ℝ))))).take
        a.maxResults,
       db)

/-- `performMongoDBVectorSearch` (search_agent.js:237–275): the engine
sends the `$vectorSearch` aggregate (query vector, `numCandidates`,
`limit`, filters) and maps the store's response to scored documents,
using the store's native score as-is.  The response itself is the
store's (external) data. -/
def performMongoDBVectorSearch (a : SearchAgent) (db : DB) (pq : ProcessedQuery)
    (input : SearchInput) : List Scored :=
  db.vectorSearchResults.map (fun p => { doc := p.1, score := some p.2 })

/-- `performVectorSearch` (search_agent.js:210–229): requires a
vectorizer, probes for the vector index, and dispatches.  The threaded
store state of the in-memory variant is projected away here, as the
source returns only the results (the store was not modified; see
`inMemorySearch_storeUnchanged`). -/
noncomputable def performVectorSearch (a : SearchAgent) (db : DB) (pq : ProcessedQuery)
    (input : SearchInput) : Except JsError (List Scored) :=
  match a.vectorizer with
  | none => Except.error JsError.vectorizerRequired
  | some enc =>
    if db.hasVectorIndex then Except.ok (performMongoDBVectorSearch a db pq input)
    else (performInMemoryVectorSearch a enc db pq input).map (fun p => p.1)

/-! ## Ranking, snippets, summary -/

/-- The score of one sentence (search_agent.js:405–419): `0.5` for a
full-query match plus `0.1` per matched keyword, unclamped. -/
def snippetScore (pq : ProcessedQuery) (sentence : Str) : ℚ :=
  (if strContains (lowerStr sentence) pq.normalized then 1/2 else 0)
    + (pq.keywords.filter (fun k => strContains (lowerStr sentence) k)).length * (1/10)

/-- `extractRelevantSnippets` (search_agent.js:396–432): sentences are
the `[.!?]+`-separated fragments with nonempty trim; sentences with
positive score are kept as `{ text: sentence.trim(), score }`, sorted
descending, top 3. -/
def extractRelevantSnippets (result : StoredDoc) (pq : ProcessedQuery) : List Snippet :=
  let text := result.output.extracted_text.getD []
  let sentences := (jsSplitRuns isSentenceSep text).filter (fun s => (trimStr s).length > 0)
  let snippets := sentences.filterMap
    (fun s =>
      let score := snippetScore pq s
      if 0 < score then some ({ text := trimStr s, score := score } : Snippet) else none)
  (sortDesc (fun s1 s2 => decide (s2.score ≤ s1.score)) snippets).take 3

/-- `rankResults` (search_agent.js:367–388): filter by
`score >= minScore` (false for NaN), stable-sort descending, map to the
public result shape with snippets attached. -/
noncomputable def rankResults (a : SearchAgent) (pq : ProcessedQuery) (results : List Scored) :
    List RankedResult :=
  let filteredResults := results.filter (fun r => jsGeB r.score (some (a.minScore : ℝ)))
  let sortedResults := sortDesc (fun r1 r2 => jsSortGeB r1.score r2.score) filteredResults
  sortedResults.map
    (fun r =>
      { id := r.doc._id, agent := r.doc.agent, score := r.score
        snippets := extractRelevantSnippets r.doc pq
        metadata := r.doc.metadata, created_at := r.doc.created_at })

/-- Per-agent result tally in first-occurrence order (the iteration
order of a JS object with non-integer-like string keys). -/
def bumpTally (a : Str) : List (Str × ℕ) → List (Str × ℕ)
  | [] => [(a, 1)]
  | (b, n) :: t => if b = a then (b, n + 1) :: t else (b, n) :: bumpTally a t

/-- `agentCounts` of `generateSummary`. -/
def tallyAgents (agents : List Str) : List (Str × ℕ) :=
  agents.foldl (fun acc a => bumpTally a acc) []

/-- `Math.round(score * 100)` rendered as JS does: `Math.round` is
`⌊x + 1/2⌋`, and `NaN` renders as the string `NaN`. -/
noncomputable def jsRoundPct : JsNum → Str
  | none => "NaN".toList
  | some x => (Int.repr (round (x * 100))).toList

/-- `generateSummary` (search_agent.js:441–472). -/
noncomputable def generateSummary (results : List RankedResult) (pq : ProcessedQuery) : Str :=
  if results.length = 0 then
    "No results found for query: \"".toList ++ pq.original ++ "\"".toList
  else
    let agentCounts := tallyAgents (results.map (fun r => r.agent))
    "Found ".toList ++ (Nat.repr results.length).toList
      ++ " results for query: \"".toList ++ pq.original ++ "\"\n\n".toList
      ++ "Results by source:\n".toList
      ++ agentCounts.foldl
        (fun acc p =>
          acc ++ "- ".toList ++ p.1 ++ ": ".toList ++ (Nat.repr p.2).toList
            ++ " results\n".toList)
        []
      ++ (match results with
        | [] => []
        | top :: _ =>
          "\nTop result (".toList ++ jsRoundPct top.score ++ "% match):\n".toList
            ++ (match top.snippets with
              | [] => []
              | s :: _ => s.text))

/-! ## The request pipeline -/

/-- `_process` (search_agent.js:33–68): require a store, process the
query, dispatch on `useVectorSearch && vectorizer`, rank, summarize.
Note that `search_type` reports the *configuration* flag, not the
strategy actually used. -/
noncomputable def _process (a : SearchAgent) (input : SearchInput) : Except JsError Response :=
  match a.db with
  | none => Except.error JsError.dbRequired
  | some db =>
    match processQuery a (input.query.getD []) with
    | Except.error e => Except.error e
    | Except.ok pq =>
      match
        (if a.useVectorSearch && a.vectorizer.isSome then performVectorSearch a db pq input
         else Except.ok (performTextSearch a db pq input)) with
      | Except.error e => Except.error e
      | Except.ok searchResults =>
        let rankedResults := rankResults a pq searchResults
        Except.ok
          { query := input.query.getD [], processed_query := pq, results := rankedResults
            summary := generateSummary rankedResults pq
            total_results := rankedResults.length
            search_type := if a.useVectorSearch then "vector".toList else "text".toList }

/-- `validateInput` (search_agent.js:478–488): `!input.query` rejects a
missing or empty query; the `typeof` check cannot fire in this model,
where a present query is always a string. -/
def validateInput (input : SearchInput) : Option JsError :=
  match input.query with
  | none => some JsError.queryRequired
  | some q => if q = [] then some JsError.queryRequired else none

/-- Modelled from the spec: `BaseAgent.process` — `base_agent.js` is not
part of the source snapshot (only its subclasses are).  Per the spec,
"empty/missing input fails as InvalidQuery before any I/O": the base
class validates the input first and only then delegates to `_process`,
which performs all store/encoder access. -/
noncomputable def process (a : SearchAgent) (input : SearchInput) : Except JsError Response :=
  match validateInput input with
  | some e => Except.error e
  | none => _process a input

/-! ## Lemmas about the stable sort -/

theorem insertDesc_perm (ge : α → α → Bool) (x : α) (l : List α) :
    List.Perm (insertDesc ge x l) (x :: l) := by
  induction l with
  | nil => simp [insertDesc]
  | cons y ys ih =>
    rw [insertDesc]
    by_cases h : ge x y = true
    · rw [if_pos h]
    · rw [if_neg h]
      exact (List.Perm.cons y ih).trans (List.Perm.swap x y ys)

theorem sortDesc_perm (ge : α → α → Bool) (l : List α) :
    List.Perm (sortDesc ge l) l := by
  induction l with
  | nil => simp [sortDesc]
  | cons x xs ih =>
    exact (insertDesc_perm ge x (sortDesc ge xs)).trans (List.Perm.cons x ih)

theorem mem_sortDesc (ge : α → α → Bool) (l : List α) (x : α) :
    x ∈ sortDesc ge l ↔ x ∈ l :=
  (sortDesc_perm ge l).mem_iff

theorem length_sortDesc (ge : α → α → Bool) (l : List α) :
    (sortDesc ge l).length = l.length :=
  (sortDesc_perm ge l).length_eq

theorem chain'_insertDesc (ge : α → α → Bool) (x : α) (l : List α)
    (hl : l.Chain' (fun a b => ge a b = true))
    (htot : ∀ y ∈ l, ge x y = true ∨ ge y x = true) :
    (insertDesc ge x l).Chain' (fun a b => ge a b = true) := by
  induction l with
  | nil => simp [insertDesc]
  | cons y ys ih =>
    rw [insertDesc]
    by_cases h : ge x y = true
    · rw [if_pos h]
      exact hl.cons h
    · rw [if_neg h]
      have hyx : ge y x = true := (htot y (List.mem_cons_self y ys)).resolve_left h
      cases ys with
      | nil =>
        simp only [insertDesc]
        exact List.chain'_pair.mpr hyx
      | cons w ws =>
        rw [insertDesc]
        by_cases hw : ge x w = true
        · rw [if_pos hw]
          exact List.Chain'.cons hyx (List.Chain'.cons hw hl.tail)
        · rw [if_neg hw]
          rw [List.chain'_cons]
          refine ⟨(List.chain'_cons.mp hl).1, ?_⟩
          have hIH := ih hl.tail (fun z hz => htot z (List.mem_cons_of_mem y hz))
          rw [insertDesc, if_neg hw] at hIH
          exact hIH

theorem chain'_sortDesc (ge : α → α → Bool) (l : List α)
    (htot : ∀ a ∈ l, ∀ b ∈ l, ge a b = true ∨ ge b a = true) :
    (sortDesc ge l).Chain' (fun a b => ge a b = true) := by
  induction l with
  | nil => simp [sortDesc]
  | cons x xs ih =>
    rw [sortDesc]
    refine chain'_insertDesc ge x (sortDesc ge xs) ?_ ?_
    · exact ih (fun a ha b hb =>
        htot a (List.mem_cons_of_mem x ha) b (List.mem_cons_of_mem x hb))
    · intro y hy
      exact htot x (List.mem_cons_self x xs) y
        (List.mem_cons_of_mem x ((mem_sortDesc ge xs y).mp hy))

/-! ## Lemmas about the fail-fast map -/

theorem mapME_error_of_mem (f : α → Except ε β) (l : List α)
    (h : ∃ x ∈ l, ∃ e, f x = Except.error e) :
    ∃ e, mapME f l = Except.error e := by
  induction l with
  | nil => simp at h
  | cons x xs ih =>
    rcases h with ⟨y, hy, e, he⟩
    rcases List.mem_cons.mp hy with rfl | hmem
    · exact ⟨e, by simp [mapME, he]⟩
    · rw [mapME]
      cases hfx : f x with
      | error e' => exact ⟨e', rfl⟩
      | ok v =>
        rcases ih ⟨y, hmem, e, he⟩ with ⟨e', he'⟩
        exact ⟨e', by simp [he']⟩

theorem mapME_ok_forall (f : α → Except ε β) (l : List α) (ys : List β)
    (h : mapME f l = Except.ok ys) :
    ∀ y ∈ ys, ∃ x ∈ l, f x = Except.ok y := by
  induction l generalizing ys with
  | nil =>
    rw [mapME] at h
    cases h
    simp
  | cons x xs ih =>
    rw [mapME] at h
    cases hfx : f x with
    | error e => rw [hfx] at h; exact absurd h (by simp)
    | ok v =>
      rw [hfx] at h
      cases hrest : mapME f xs with
      | error e => rw [hrest] at h; exact absurd h (by simp)
      | ok vs =>
        rw [hrest] at h
        cases h
        intro y hy
        rcases List.mem_cons.mp hy with rfl | hmem
        · exact ⟨x, List.mem_cons_self x xs, hfx⟩
        · rcases ih vs hrest y hmem with ⟨x', hx', hfx'⟩
          exact ⟨x', List.mem_cons_of_mem x hx', hfx'⟩

/-! ## Cauchy–Schwarz for the loop sums, and cosine bounds -/

theorem magSq_nonneg (v : List ℝ) : 0 ≤ magSq v := by
  refine List.sum_nonneg ?_
  intro a ha
  rcases List.mem_map.mp ha with ⟨x, _, rfl⟩
  exact mul_self_nonneg x

theorem magL_nonneg (v : List ℝ) : 0 ≤ magL v := Real.sqrt_nonneg _

theorem dotL_sq_le (v1 v2 : List ℝ) : (dotL v1 v2) ^ 2 ≤ magSq v1 * magSq v2 := by
  induction v1 generalizing v2 with
  | nil =>
    simp [dotL, magSq]
  | cons x xs ih =>
    cases v2 with
    | nil =>
      simp [dotL, magSq]
    | cons y ys =>
      have hS := ih ys
      have hA := magSq_nonneg xs
      have hB := magSq_nonneg ys
      have hd : dotL (x :: xs) (y :: ys) = x * y + dotL xs ys := by
        simp [dotL]
      have hm1 : magSq (x :: xs) = x * x + magSq xs := by simp [magSq]
      have hm2 : magSq (y :: ys) = y * y + magSq ys := by simp [magSq]
      rw [hd, hm1, hm2]
      set S := dotL xs ys
      set A := magSq xs
      set B := magSq ys
      have key : (2 * x * y * S) ^ 2 ≤ (x ^ 2 * B + A * y ^ 2) ^ 2 := by
        nlinarith [sq_nonneg (x ^ 2 * B - A * y ^ 2),
          mul_nonneg (mul_nonneg (sq_nonneg x) (sq_nonneg y)) (sub_nonneg.mpr hS)]
      have hpos : 0 ≤ x ^ 2 * B + A * y ^ 2 := by positivity
      have h1 : 2 * x * y * S ≤ x ^ 2 * B + A * y ^ 2 := by
        calc 2 * x * y * S ≤ |2 * x * y * S| := le_abs_self _
          _ = Real.sqrt ((2 * x * y * S) ^ 2) := (Real.sqrt_sq_eq_abs _).symm
          _ ≤ Real.sqrt ((x ^ 2 * B + A * y ^ 2) ^ 2) := Real.sqrt_le_sqrt key
          _ = |x ^ 2 * B + A * y ^ 2| := Real.sqrt_sq_eq_abs _
          _ = x ^ 2 * B + A * y ^ 2 := abs_of_nonneg hpos
      nlinarith [h1, hS]

theorem abs_dotL_le (v1 v2 : List ℝ) : |dotL v1 v2| ≤ magL v1 * magL v2 := by
  have h := Real.abs_le_sqrt (dotL_sq_le v1 v2)
  rwa [Real.sqrt_mul (magSq_nonneg v1)] at h

/-- The cosine similarity always lies in `[-1, 1]`. -/
theorem calculateCosineSimilarity_mem_Icc (o1 o2 : Option (List ℝ)) :
    calculateCosineSimilarity o1 o2 ∈ Set.Icc (-1 : ℝ) 1 := by
  cases o1 with
  | none => simp [calculateCosineSimilarity]
  | some v1 =>
    cases o2 with
    | none => simp [calculateCosineSimilarity]
    | some v2 =>
      rw [calculateCosineSimilarity]
      by_cases hlen : v1.length ≠ v2.length
      · rw [if_pos hlen]; constructor <;> norm_num
      · rw [if_neg hlen]
        by_cases hz : magL v1 = 0 ∨ magL v2 = 0
        · rw [if_pos hz]; constructor <;> norm_num
        · rw [if_neg hz]
          push_neg at hz
          have h1 : 0 < magL v1 := lt_of_le_of_ne (magL_nonneg v1) (Ne.symm hz.1)
          have h2 : 0 < magL v2 := lt_of_le_of_ne (magL_nonneg v2) (Ne.symm hz.2)
          have hm : 0 < magL v1 * magL v2 := mul_pos h1 h2
          have habs := abs_dotL_le v1 v2
          rw [abs_le] at habs
          constructor
          · rw [le_div_iff hm]
            linarith [habs.1]
          · rw [div_le_one hm]
            exact habs.2

/-! ## Invariants of ranking -/

/-- "Non-increasing" on JS scores: both adjacent scores are numbers
(not NaN) and the later one is not larger. -/
def jsNumGeProp (a b : JsNum) : Prop := ∃ x y : ℝ, a = some x ∧ b = some y ∧ y ≤ x

theorem jsGeB_eq_true_iff (s : JsNum) (m : ℝ) :
    jsGeB s (some m) = true ↔ ∃ x : ℝ, s = some x ∧ m ≤ x := by
  cases s with
  | none => simp [jsGeB]
  | some x => simp [jsGeB]

theorem chain'_imp_of_mem {α : Type _} {R S : α → α → Prop} (l : List α)
    (hl : l.Chain' R) (himp : ∀ a ∈ l, ∀ b ∈ l, R a b → S a b) : l.Chain' S := by
  induction l with
  | nil => trivial
  | cons x xs ih =>
    rw [List.chain'_cons'] at hl ⊢
    refine ⟨?_, ih hl.2 (fun a ha b hb => himp a (List.mem_cons_of_mem x ha) b
      (List.mem_cons_of_mem x hb))⟩
    intro y hy
    have hymem : y ∈ x :: xs := by
      cases xs with
      | nil => simp at hy
      | cons w ws =>
        simp only [List.head?_cons, Option.mem_def, Option.some.injEq] at hy
        subst hy
        exact List.mem_cons_of_mem x (List.mem_cons_self w ws)
    exact himp x (List.mem_cons_self x xs) y hymem (hl.1 y hy)

theorem extractRelevantSnippets_le_three (result : StoredDoc) (pq : ProcessedQuery) :
    (extractRelevantSnippets result pq).length ≤ 3 := by
  rw [extractRelevantSnippets]
  exact (List.length_take_le 3 _)

theorem extractRelevantSnippets_sorted (result : StoredDoc) (pq : ProcessedQuery) :
    (extractRelevantSnippets result pq).Chain' (fun s1 s2 => s2.score ≤ s1.score) := by
  rw [extractRelevantSnippets]
  refine List.Chain'.take ?_ 3
  refine (chain'_sortDesc (fun s1 s2 : Snippet => decide (s2.score ≤ s1.score)) _
      (fun a _ b _ => ?_)).imp (fun a b hab => of_decide_eq_true hab)
  rcases le_total b.score a.score with h | h
  · exact Or.inl (decide_eq_true h)
  · exact Or.inr (decide_eq_true h)

/-- What `rankResults` guarantees, given only that every numeric input
score is at most `1`: every returned score is a number in
`[minScore, 1]`, scores are sorted non-increasing, the output is no
longer than the input, and each result carries at most 3 snippets
sorted non-increasing. -/
theorem rankResults_invariants (a : SearchAgent) (pq : ProcessedQuery)
    (results : List Scored) (hub : ∀ r ∈ results, ∀ x : ℝ, r.score = some x → x ≤ 1) :
    (∀ r ∈ rankResults a pq results,
        ∃ x : ℝ, r.score = some x ∧ (a.minScore : ℝ) ≤ x ∧ x ≤ 1)
    ∧ ((rankResults a pq results).map (fun r => r.score)).Chain' jsNumGeProp
    ∧ (rankResults a pq results).length ≤ results.length
    ∧ ∀ r ∈ rankResults a pq results,
        r.snippets.length ≤ 3
        ∧ r.snippets.Chain' (fun s1 s2 => s2.score ≤ s1.score) := by
  rw [rankResults]
  set filtered := results.filter (fun r => jsGeB r.score (some (a.minScore : ℝ))) with hfil
  set sorted := sortDesc (fun r1 r2 => jsSortGeB r1.score r2.score) filtered with hsort
  have hmemfil : ∀ r ∈ filtered, ∃ x : ℝ, r.score = some x ∧ (a.minScore : ℝ) ≤ x ∧ x ≤ 1 := by
    intro r hr
    have hf := List.of_mem_filter hr
    have hrmem := List.mem_of_mem_filter hr
    rcases (jsGeB_eq_true_iff r.score _).mp hf with ⟨x, hx, hmx⟩
    exact ⟨x, hx, hmx, hub r hrmem x hx⟩
  have hmemsort : ∀ r ∈ sorted, ∃ x : ℝ, r.score = some x ∧ (a.minScore : ℝ) ≤ x ∧ x ≤ 1 :=
    fun r hr => hmemfil r ((mem_sortDesc _ _ r).mp hr)
  refine ⟨?_, ?_, ?_, ?_⟩
  · intro r hr
    rcases List.mem_map.mp hr with ⟨s, hs, rfl⟩
    exact hmemsort s hs
  · rw [List.map_map]
    rw [List.chain'_map]
    have hchain : sorted.Chain' (fun r1 r2 => jsSortGeB r1.score r2.score = true) := by
      refine chain'_sortDesc _ filtered ?_
      intro r1 h1 r2 h2
      rcases hmemfil r1 h1 with ⟨x1, hx1, -, -⟩
      rcases hmemfil r2 h2 with ⟨x2, hx2, -, -⟩
      rw [hx1, hx2]
      rcases le_total x2 x1 with h | h
      · exact Or.inl (by simp [jsSortGeB, h])
      · exact Or.inr (by simp [jsSortGeB, h])
    refine chain'_imp_of_mem sorted hchain ?_
    intro r1 h1 r2 h2 hge
    rcases hmemsort r1 h1 with ⟨x1, hx1, -, -⟩
    rcases hmemsort r2 h2 with ⟨x2, hx2, -, -⟩
    rw [hx1, hx2] at hge
    simp only [jsSortGeB, decide_eq_true_eq] at hge
    exact ⟨x1, x2, hx1, hx2, hge⟩
  · rw [List.length_map]
    calc sorted.length = filtered.length := length_sortDesc _ _
      _ ≤ results.length := List.length_filter_le _ _
  · intro r hr
    rcases List.mem_map.mp hr with ⟨s, _, rfl⟩
    exact ⟨extractRelevantSnippets_le_three s.doc pq, extractRelevantSnippets_sorted s.doc pq⟩

/-! ## Per-strategy score bounds -/

theorem calculateTextScore_le_one (d : StoredDoc) (pq : ProcessedQuery) (x : ℝ)
    (h : calculateTextScore d pq = some x) : x ≤ 1 := by
  cases ht : d.output.extracted_text with
  | none =>
    simp only [calculateTextScore, ht, Option.some.injEq] at h
    subst h
    exact min_le_left _ _
  | some t =>
    simp only [calculateTextScore, ht] at h
    by_cases hne : t ≠ []
    · rw [if_pos hne] at h
      by_cases hk : pq.keywords = []
      · rw [if_pos hk] at h
        exact absurd h (by simp)
      · rw [if_neg hk] at h
        simp only [Option.some.injEq] at h
        subst h
        exact min_le_left _ _
    · rw [if_neg hne] at h
      simp only [Option.some.injEq] at h
      subst h
      exact min_le_left _ _

theorem performTextSearch_score_le_one (a : SearchAgent) (db : DB) (pq : ProcessedQuery)
    (input : SearchInput) :
    ∀ r ∈ performTextSearch a db pq input, ∀ x : ℝ, r.score = some x → x ≤ 1 := by
  intro r hr x hx
  rw [performTextSearch] at hr
  rcases List.mem_map.mp hr with ⟨d, _, rfl⟩
  exact calculateTextScore_le_one d pq x hx

theorem performTextSearch_length_le (a : SearchAgent) (db : DB) (pq : ProcessedQuery)
    (input : SearchInput) :
    (performTextSearch a db pq input).length ≤ a.maxResults := by
  rw [performTextSearch]
  rw [List.length_map]
  exact List.length_take_le _ _

theorem backfillDoc_ok_isSome (enc : Vectorizer) (x y : StoredDoc)
    (h : backfillDoc enc x = Except.ok y) : y.vector_embedding.isSome := by
  cases hv : x.vector_embedding with
  | some v =>
    simp only [backfillDoc, hv, Except.ok.injEq] at h
    subst h
    simp [hv]
  | none =>
    simp only [backfillDoc, hv] at h
    cases he : enc (x.output.extracted_text.getD []) with
    | ok v =>
      rw [he] at h
      simp only [Except.ok.injEq] at h
      subst h
      simp
    | error msg => rw [he] at h; exact absurd h (by simp)

theorem inMemorySearch_ok (a : SearchAgent) (enc : Vectorizer) (db : DB) (pq : ProcessedQuery)
    (input : SearchInput) (res : List Scored) (db' : DB)
    (h : performInMemoryVectorSearch a enc db pq input = Except.ok (res, db')) :
    db' = db ∧ res.length ≤ a.maxResults
    ∧ ∀ r ∈ res,
        (∃ x : ℝ, r.score = some x ∧ -1 ≤ x ∧ x ≤ 1) ∧ r.doc.vector_embedding.isSome := by
  cases hm : mapME (backfillDoc enc) ((db.docs.filter (filterMatch input.filters)).take 1000) with
  | error e =>
    simp only [performInMemoryVectorSearch, hm] at h
    exact absurd h (by simp)
  | ok docs =>
    simp only [performInMemoryVectorSearch, hm, Except.ok.injEq, Prod.mk.injEq] at h
    obtain ⟨hres, hdb⟩ := h
    subst hdb
    refine ⟨rfl, ?_, ?_⟩
    · rw [← hres]
      exact List.length_take_le _ _
    · intro r hr
      rw [← hres] at hr
      have hr2 := List.mem_of_mem_take hr
      have hr3 := (mem_sortDesc _ _ r).mp hr2
      have hr4 := List.mem_of_mem_filter hr3
      rcases List.mem_map.mp hr4 with ⟨doc, hdoc, rfl⟩
      constructor
      · refine ⟨calculateCosineSimilarity pq.vector doc.vector_embedding, rfl, ?_, ?_⟩
        · exact (calculateCosineSimilarity_mem_Icc pq.vector doc.vector_embedding).1
        · exact (calculateCosineSimilarity_mem_Icc pq.vector doc.vector_embedding).2
      · rcases mapME_ok_forall (backfillDoc enc) _ docs hm doc hdoc with ⟨x, _, hxok⟩
        exact backfillDoc_ok_isSome enc x doc hxok

/-! ## Reduction of a successful `_process` run -/

theorem _process_ok_results (a : SearchAgent) (db : DB) (input : SearchInput)
    (rs : List RankedResult) (hdb : a.db = some db)
    (h : (_process a input).map (fun r => r.results) = Except.ok rs) :
    ∃ pq searchResults,
      processQuery a (input.query.getD []) = Except.ok pq
      ∧ (if a.useVectorSearch && a.vectorizer.isSome then performVectorSearch a db pq input
          else Except.ok (performTextSearch a db pq input)) = Except.ok searchResults
      ∧ rs = rankResults a pq searchResults := by
  simp only [_process, hdb] at h
  cases hq : processQuery a (input.query.getD []) with
  | error e => simp [hq, Except.map] at h
  | ok pq =>
    simp only [hq] at h
    cases hs : (if a.useVectorSearch && a.vectorizer.isSome then performVectorSearch a db pq input
        else Except.ok (performTextSearch a db pq input)) with
    | error e => rw [hs] at h; simp [Except.map] at h
    | ok sr =>
      rw [hs] at h
      simp only [Except.map, Except.ok.injEq] at h
      exact ⟨pq, sr, rfl, hs, h.symm⟩

/-- C5 (amended): for every result set returned by the engine under
the text strategy or the brute-force (no native index) vector strategy,
*provided the configured minimum score is nonnegative*: every result
score is a number in `[0, 1]`; result scores are sorted non-increasing;
the result count is at most the configured maximum; and each result
carries at most 3 snippets sorted non-increasing by snippet score.
(With a negative configured `minScore` a negative cosine score is
returned unclamped, and delegated-index scores are passed through
as-is; see the counterexample.) -/
theorem claim_C5_amended (a : SearchAgent) (db : DB) (input : SearchInput)
    (rs : List RankedResult) (hmin : 0 ≤ a.minScore) (hdb : a.db = some db)
    (hidx : db.hasVectorIndex = false)
    (hrun : (_process a input).map (fun r => r.results) = Except.ok rs) :
    (∀ r ∈ rs, ∃ x : ℝ, r.score = some x ∧ 0 ≤ x ∧ x ≤ 1)
    ∧ (rs.map (fun r => r.score)).Chain' jsNumGeProp
    ∧ rs.length ≤ a.maxResults
    ∧ ∀ r ∈ rs,
        r.snippets.length ≤ 3 ∧ r.snippets.Chain' (fun s1 s2 => s2.score ≤ s1.score) := by
  have hmin' : (0 : ℝ) ≤ (a.minScore : ℝ) := by exact_mod_cast hmin
  obtain ⟨pq, sr, hq, hs, hrs⟩ := _process_ok_results a db input rs hdb hrun
  subst hrs
  cases hv : (a.useVectorSearch && a.vectorizer.isSome) with
  | false =>
    rw [hv] at hs
    simp only [Bool.false_eq_true, if_false, Except.ok.injEq] at hs
    subst hs
    obtain ⟨h1, h2, h3, h4⟩ :=
      rankResults_invariants a pq _ (performTextSearch_score_le_one a db pq input)
    refine ⟨?_, h2, le_trans h3 (performTextSearch_length_le a db pq input), h4⟩
    intro r hr
    rcases h1 r hr with ⟨x, hx, hmx, hx1⟩
    exact ⟨x, hx, le_trans hmin' hmx, hx1⟩
  | true =>
    rw [hv] at hs
    simp only [if_true] at hs
    cases henc : a.vectorizer with
    | none => rw [henc] at hv; simp at hv
    | some enc =>
      simp only [performVectorSearch, henc, hidx, Bool.false_eq_true, if_false] at hs
      cases him : performInMemoryVectorSearch a enc db pq input with
      | error e => rw [him] at hs; simp [Except.map] at hs
      | ok p =>
        rw [him] at hs
        simp only [Except.map, Except.ok.injEq] at hs
        subst hs
        obtain ⟨-, hlen, hmem⟩ := inMemorySearch_ok a enc db pq input p.1 p.2 (by rw [him])
        have hub : ∀ r ∈ p.1, ∀ x : ℝ, r.score = some x → x ≤ 1 := by
          intro r hr x hx
          rcases (hmem r hr).1 with ⟨y, hy, -, hy1⟩
          rw [hx] at hy
          cases hy
          exact hy1
        obtain ⟨h1, h2, h3, h4⟩ := rankResults_invariants a pq _ hub
        refine ⟨?_, h2, le_trans h3 hlen, h4⟩
        intro r hr
        rcases h1 r hr with ⟨x, hx, hmx, hx1⟩
        exact ⟨x, hx, le_trans hmin' hmx, hx1⟩

/-! ## Concrete instances used by witnesses and counterexamples -/

/-- An encoder that maps every text to the vector `[1]`. -/
def encConst : Vectorizer := fun _ => Except.ok [1]

/-- A stored document with extracted text `"text"` and embedding `[-1]`. -/
def docNegEmb : StoredDoc :=
  { _id := 1, agent := "alpha".toList,
    output := { extracted_text := some "text".toList, analysis := none },
    vector_embedding := some [-1], metadata := [], created_at := 0 }

/-- A store holding only `docNegEmb`, without a vector index. -/
def dbNegEmb : DB := { docs := [docNegEmb], hasVectorIndex := false, vectorSearchResults := [] }

/-- A vector-search engine configured with `minScore := -1` (truthy, so
kept as-is by the constructor). -/
def agentNegMin : SearchAgent :=
  mkSearchAgent { db := some dbNegEmb, useVectorSearch := some true,
                  vectorizer := some encConst, minScore := some (-1) }

/-- The request `{ query: "test" }`. -/
def inputTest : SearchInput := { query := some "test".toList, filters := none }

/-- The processed query of `"test"` under `encConst`. -/
def pqTestVal : ProcessedQuery :=
  { original := "test".toList, normalized := "test".toList,
    keywords := ["test".toList], entities := [], intent := Intent.INFORMATION,
    vector := some [(1 : ℝ)] }

/-- A store advertising a vector index whose `$vectorSearch` response
carries the native score `2`. -/
def dbIdx : DB := { docs := [], hasVectorIndex := true, vectorSearchResults := [(docNegEmb, 2)] }

/-- A vector-search engine over `dbIdx` with default `minScore`. -/
def agentIdx : SearchAgent :=
  mkSearchAgent { db := some dbIdx, useVectorSearch := some true, vectorizer := some encConst }

/-- An empty store. -/
def dbEmptyStore : DB := { docs := [], hasVectorIndex := false, vectorSearchResults := [] }

/-- A default (text-search) engine over the empty store. -/
def agentText : SearchAgent := mkSearchAgent { db := some dbEmptyStore }

/-- A document lacking an embedding. -/
def docNoEmb : StoredDoc :=
  { _id := 2, agent := "beta".toList,
    output := { extracted_text := some "text".toList, analysis := none },
    vector_embedding := none, metadata := [], created_at := 0 }

/-- A store holding only `docNoEmb`. -/
def dbNoEmb : DB := { docs := [docNoEmb], hasVectorIndex := false, vectorSearchResults := [] }

/-- A vector-search engine over `dbNoEmb`. -/
def agentBackfill : SearchAgent :=
  mkSearchAgent { db := some dbNoEmb, useVectorSearch := some true, vectorizer := some encConst }

/-- `docNoEmb` with the embedding the engine computes in-memory. -/
def docNoEmbFilled : StoredDoc := { docNoEmb with vector_embedding := some [(1 : ℝ)] }

/-- The scored in-memory copy of `docNoEmb`. -/
def scoredFilled : Scored := { doc := docNoEmbFilled, score := some 1 }

/-- An engine constructed without a store. -/
def agentNoDb : SearchAgent := mkSearchAgent {}

/-- An encoder that rejects exactly the text `"bad"`. -/
def encFail : Vectorizer :=
  fun s => if s = "bad".toList then Except.error "boom".toList else Except.ok [1]

/-- A document that already has an embedding. -/
def docGoodEmb : StoredDoc :=
  { _id := 4, agent := "alpha".toList,
    output := { extracted_text := some "good".toList, analysis := none },
    vector_embedding := some [(1 : ℝ)], metadata := [], created_at := 0 }

/-- A document whose text the encoder `encFail` rejects. -/
def docBadText : StoredDoc :=
  { _id := 5, agent := "beta".toList,
    output := { extracted_text := some "bad".toList, analysis := none },
    vector_embedding := none, metadata := [], created_at := 0 }

/-- A store with one encodable and one failing document. -/
def dbTwoDocs : DB :=
  { docs := [docGoodEmb, docBadText], hasVectorIndex := false, vectorSearchResults := [] }

/-- A vector-search engine over `dbTwoDocs` with the failing encoder. -/
def agentFailEnc : SearchAgent :=
  mkSearchAgent { db := some dbTwoDocs, useVectorSearch := some true, vectorizer := some encFail }

/-- A document with text `"xyz"`. -/
def docXyz : StoredDoc :=
  { _id := 6, agent := "alpha".toList,
    output := { extracted_text := some "xyz".toList, analysis := none },
    vector_embedding := none, metadata := [], created_at := 0 }

/-- The processed query of `"ab"`: both tokens of the query are too
short, so the keyword list is empty. -/
def pqABVal : ProcessedQuery :=
  { original := "ab".toList, normalized := "ab".toList, keywords := [], entities := [],
    intent := Intent.INFORMATION, vector := none }

/-- `useVectorSearch = true` but no vectorizer configured. -/
def agentNoEnc : SearchAgent :=
  mkSearchAgent { db := some dbEmptyStore, useVectorSearch := some true }

/-- The request with an empty query string. -/
def inputEmptyQ : SearchInput := { query := some [], filters := none }

/-- The claim C8's literal reading of the keyword pipeline: tokens over
strictly alphanumeric characters (underscore stripped with the
punctuation). -/
def specKeywordsStrict (query : Str) : List Str :=
  (jsSplitRuns jsIsSpace
      ((lowerStr query).filter (fun c => c.isAlphanum || jsIsSpace c))).filter
    (fun w => w.length > 2)

/-! ## Concrete evaluations -/

theorem cosNegOne : calculateCosineSimilarity (some [(1 : ℝ)]) (some [(-1 : ℝ)]) = -1 := by
  rw [calculateCosineSimilarity]
  have h1 : magSq [(1 : ℝ)] = 1 := by simp [magSq]
  have h2 : magSq [(-1 : ℝ)] = 1 := by simp [magSq]
  have hm1 : magL [(1 : ℝ)] = 1 := by rw [magL, h1, Real.sqrt_one]
  have hm2 : magL [(-1 : ℝ)] = 1 := by rw [magL, h2, Real.sqrt_one]
  have hd : dotL [(1 : ℝ)] [(-1 : ℝ)] = -1 := by simp [dotL]
  rw [if_neg (by simp)]
  rw [hm1, hm2, if_neg (by norm_num), hd]
  norm_num

theorem cosOne : calculateCosineSimilarity (some [(1 : ℝ)]) (some [(1 : ℝ)]) = 1 := by
  rw [calculateCosineSimilarity]
  have h1 : magSq [(1 : ℝ)] = 1 := by simp [magSq]
  have hm1 : magL [(1 : ℝ)] = 1 := by rw [magL, h1, Real.sqrt_one]
  have hd : dotL [(1 : ℝ)] [(1 : ℝ)] = 1 := by simp [dotL]
  rw [if_neg (by simp)]
  rw [hm1, if_neg (by norm_num), hd]
  norm_num

theorem processQuery_negMin : processQuery agentNegMin "test".toList = Except.ok pqTestVal := by
  rfl

theorem inMemSearch_negMin :
    performInMemoryVectorSearch agentNegMin encConst dbNegEmb pqTestVal inputTest
      = Except.ok ([{ doc := docNegEmb, score := some (-1) }], dbNegEmb) := by
  rw [performInMemoryVectorSearch]
  norm_num [dbNegEmb, docNegEmb, filterMatch, mapME, backfillDoc, pqTestVal, cosNegOne, jsGeB,
    jsSortGeB, agentNegMin, mkSearchAgent, sortDesc, insertDesc]

theorem process_negMin_scores :
    (_process agentNegMin inputTest).map (fun r => r.results.map (fun rr => rr.score))
      = Except.ok [some (-1)] := by
  have hdb : agentNegMin.db = some dbNegEmb := rfl
  have hqy : inputTest.query.getD [] = "test".toList := rfl
  have hcond : (agentNegMin.useVectorSearch && agentNegMin.vectorizer.isSome) = true := rfl
  have hvec : agentNegMin.vectorizer = some encConst := rfl
  have hidx : dbNegEmb.hasVectorIndex = false := rfl
  simp only [_process, hdb, hqy, processQuery_negMin, hcond, if_true, performVectorSearch,
    hvec, hidx, Bool.false_eq_true, if_false, inMemSearch_negMin, Except.map]
  norm_num [rankResults, jsGeB, jsSortGeB, sortDesc, insertDesc, agentNegMin, mkSearchAgent]

theorem process_idx_scores :
    (_process agentIdx inputTest).map (fun r => r.results.map (fun rr => rr.score))
      = Except.ok [some 2] := by
  have hdb : agentIdx.db = some dbIdx := rfl
  have hqy : inputTest.query.getD [] = "test".toList := rfl
  have hpq : processQuery agentIdx "test".toList = Except.ok pqTestVal := rfl
  have hcond : (agentIdx.useVectorSearch && agentIdx.vectorizer.isSome) = true := rfl
  have hvec : agentIdx.vectorizer = some encConst := rfl
  have hidx : dbIdx.hasVectorIndex = true := rfl
  simp only [_process, hdb, hqy, hpq, hcond, if_true, performVectorSearch, hvec, hidx,
    performMongoDBVectorSearch, Except.map]
  norm_num [dbIdx, rankResults, jsGeB, jsSortGeB, sortDesc, insertDesc, agentIdx, mkSearchAgent]

theorem process_emptyStore_results :
    (_process agentText inputTest).map (fun r => r.results) = Except.ok [] := by
  rfl

theorem inMemSearch_backfill :
    performInMemoryVectorSearch agentBackfill encConst dbNoEmb pqTestVal inputTest
      = Except.ok ([scoredFilled], dbNoEmb) := by
  rw [performInMemoryVectorSearch]
  norm_num [dbNoEmb, docNoEmb, docNoEmbFilled, scoredFilled, filterMatch, mapME, backfillDoc,
    encConst, pqTestVal, cosOne, jsGeB, jsSortGeB, agentBackfill, mkSearchAgent,
    sortDesc, insertDesc]

/-! ## Commutation of keyword extraction with tokenization -/

theorem jsSplitGo_filter_comm (sep w : Char → Bool) (s : Str) :
    ∀ (cur : Str) (iL iR : Bool),
      (iR = true → iL = true) → (iR = true → cur = []) → (iL = true → cur.filter w = []) →
      (jsSplitGo sep iL (cur.filter w) (s.filter (fun c => w c || sep c))).filter
          (fun t => t.length > 2)
        = ((jsSplitGo sep iR cur s).map (fun t => t.filter w)).filter
            (fun t => t.length > 2) := by
  induction s with
  | nil =>
    intro cur iL iR h1 h2 h3
    simp [jsSplitGo, List.filter_reverse]
  | cons c cs ih =>
    intro cur iL iR h1 h2 h3
    by_cases hsep : sep c = true
    · have hkeep : (w c || sep c) = true := by rw [hsep]; simp
      rw [List.filter_cons, if_pos hkeep]
      simp only [jsSplitGo, hsep, if_true]
      cases iR with
      | true =>
        rw [h2 rfl] at h3 ⊢
        rw [h1 rfl]
        simp only [if_true, List.filter_nil]
        have := ih [] true true (fun _ => rfl) (fun _ => rfl) (by simp)
        simpa using this
      | false =>
        cases iL with
        | true =>
          simp only [if_true, Bool.false_eq_true, if_false, List.map_cons]
          rw [List.filter_reverse, h3 rfl]
          simp only [List.reverse_nil, List.filter_cons, List.length_nil]
          norm_num
          have := ih [] true true (fun _ => rfl) (fun _ => rfl) (by simp)
          simpa using this
        | false =>
          simp only [Bool.false_eq_true, if_false, List.map_cons, List.filter_cons,
            List.filter_reverse]
          have := ih [] true true (fun _ => rfl) (fun _ => rfl) (by simp)
          simp only [List.filter_nil] at this
          rw [this]
    · have hsep2 : sep c = false := by simpa using hsep
      by_cases hw : w c = true
      · have hkeep : (w c || sep c) = true := by rw [hw]; simp
        rw [List.filter_cons, if_pos hkeep]
        simp only [jsSplitGo, hsep2, Bool.false_eq_true, if_false]
        have := ih (c :: cur) false false (by simp) (by simp) (by simp)
        simp only [List.filter_cons, hw, if_true] at this
        exact this
      · have hw2 : w c = false := by simpa using hw
        have hkeep : (w c || sep c) = false := by rw [hw2, hsep2]; rfl
        rw [List.filter_cons, if_neg (by simp [hkeep])]
        conv_rhs => rw [jsSplitGo]
        simp only [hsep2, Bool.false_eq_true, if_false]
        have := ih (c :: cur) iL false (by simp) (by simp)
          (fun hiL => by
            rw [List.filter_cons, if_neg (by simp [hw2])]
            exact h3 hiL)
        simp only [List.filter_cons, hw2, Bool.false_eq_true, if_false] at this
        exact this

theorem char_isUpper_iff (c : Char) : c.isUpper = true ↔ 65 ≤ c.toNat ∧ c.toNat ≤ 90 := by
  rw [Char.isUpper]
  rw [Bool.and_eq_true]
  rw [decide_eq_true_eq, decide_eq_true_eq, ge_iff_le]
  constructor
  · rintro ⟨h1, h2⟩
    constructor
    · have := UInt32.le_def.mp h1
      have := BitVec.le_def.mp this
      simpa using this
    · have := UInt32.le_def.mp h2
      have := BitVec.le_def.mp this
      simpa using this
  · rintro ⟨h1, h2⟩
    constructor
    · apply UInt32.le_def.mpr
      apply BitVec.le_def.mpr
      simpa using h1
    · apply UInt32.le_def.mpr
      apply BitVec.le_def.mpr
      simpa using h2

theorem char_toNat_ofNat_valid (n : Nat) (h : n.isValidChar) : (Char.ofNat n).toNat = n := by
  rw [Char.ofNat, dif_pos h]
  rfl

theorem toLower_isUpper_false (c : Char) : (Char.toLower c).isUpper = false := by
  rw [Char.toLower]
  by_cases h : c.toNat ≥ 65 ∧ c.toNat ≤ 90
  · rw [if_pos h]
    have hvalid : (c.toNat + 32).isValidChar := Or.inl (by
      rcases h with ⟨-, h2⟩
      omega)
    have htn : (Char.ofNat (c.toNat + 32)).toNat = c.toNat + 32 := char_toNat_ofNat_valid _ hvalid
    rw [Bool.eq_false_iff]
    intro hup
    rcases (char_isUpper_iff _).mp hup with ⟨-, h2⟩
    rw [htn] at h2
    omega
  · rw [if_neg h]
    rw [Bool.eq_false_iff]
    intro hup
    exact h (by
      rcases (char_isUpper_iff _).mp hup with ⟨h1, h2⟩
      exact ⟨h1, h2⟩)

theorem jsSplitGo_chars (sep : Char → Bool) (Q : Char → Prop) (s : Str) :
    ∀ (cur : Str) (iR : Bool), (∀ c ∈ cur, Q c) → (∀ c ∈ s, sep c = false → Q c) →
      ∀ t ∈ jsSplitGo sep iR cur s, ∀ c ∈ t, Q c := by
  induction s with
  | nil =>
    intro cur iR hcur _ t ht c hc
    simp only [jsSplitGo, List.mem_singleton] at ht
    subst ht
    exact hcur c (List.mem_reverse.mp hc)
  | cons a cs ih =>
    intro cur iR hcur hs t ht c hc
    by_cases hsep : sep a = true
    · simp only [jsSplitGo, hsep, if_true] at ht
      have hrec := ih [] true (by simp)
        (fun x hx hxs => hs x (List.mem_cons_of_mem a hx) hxs)
      cases iR with
      | true =>
        exact hrec t ht c hc
      | false =>
        simp only [Bool.false_eq_true, if_false, List.mem_cons] at ht
        rcases ht with rfl | ht
        · exact hcur c (List.mem_reverse.mp hc)
        · exact hrec t ht c hc
    · have hsep2 : sep a = false := by simpa using hsep
      simp only [jsSplitGo, hsep2, Bool.false_eq_true, if_false] at ht
      refine ih (a :: cur) false ?_
        (fun x hx hxs => hs x (List.mem_cons_of_mem a hx) hxs) t ht c hc
      intro x hx
      rcases List.mem_cons.mp hx with rfl | hx
      · exact hs _ (List.mem_cons_self _ _) hsep2
      · exact hcur x hx

theorem keywordsOf_shape (q : Str) :
    ∀ k ∈ keywordsOf q, k.length > 2 ∧ ∀ c ∈ k, isWordChar c = true ∧ c.isUpper = false := by
  intro k hk
  rw [keywordsOf] at hk
  refine ⟨by simpa using List.of_mem_filter hk, ?_⟩
  have hk2 := List.mem_of_mem_filter hk
  rw [jsSplitRuns] at hk2
  refine jsSplitGo_chars jsIsSpace (fun c => isWordChar c = true ∧ c.isUpper = false) _ [] false
    (by simp) ?_ k hk2
  intro c hc hcs
  have hmem := List.mem_of_mem_filter hc
  have hkeep := List.of_mem_filter hc
  constructor
  · rcases Bool.or_eq_true_iff.mp hkeep with h | h
    · exact h
    · rw [h] at hcs
      exact absurd hcs (by simp)
  · rcases List.mem_map.mp hmem with ⟨c', _, rfl⟩
    exact toLower_isUpper_false c'

/-! ## Algebraic facts about the similarity loop -/

theorem dotL_comm (v1 v2 : List ℝ) : dotL v1 v2 = dotL v2 v1 := by
  rw [dotL, dotL, List.zipWith_comm_of_comm _ mul_comm]

theorem dotL_self (v : List ℝ) : dotL v v = magSq v := by
  simp [dotL, magSq, List.zipWith_same]

theorem magSq_pos (v : List ℝ) (h : ∃ x ∈ v, x ≠ 0) : 0 < magSq v := by
  rcases h with ⟨x, hx, hx0⟩
  have h1 : x * x ≤ magSq v := by
    refine List.single_le_sum ?_ _ (List.mem_map.mpr ⟨x, hx, rfl⟩)
    intro y hy
    rcases List.mem_map.mp hy with ⟨z, _, rfl⟩
    exact mul_self_nonneg z
  have h2 : 0 < x * x := mul_self_pos.mpr hx0
  linarith

/-! ## Claim C1 -/

/-- C1 (counterexample): with `useVectorSearch = true` and no encoder
configured, a search request does not surface an error at all — the
engine answers successfully (here: zero results over the empty store),
while even labeling the response `search_type = "vector"`.  This
refutes the claim that an explicit EncoderUnavailable error reaches the
caller. -/
theorem claim_C1_counterexample :
    (_process agentNoEnc inputTest).map (fun r => (r.total_results, r.search_type))
      = Except.ok (0, "vector".toList) := by
  rfl

/-- C1 (amended): when `useVectorSearch = true` but no encoder is
configured, the engine silently substitutes text search: it behaves
exactly like the identical configuration with `useVectorSearch = false`
except that the response is labeled `search_type = "vector"`.  The
explicit error `Vectorizer required for vector search` is raised only
if `performVectorSearch` itself is invoked without an encoder, a path
`_process` never takes in this configuration. -/
theorem claim_C1_amended (a a2 : SearchAgent) (input : SearchInput)
    (huse : a.useVectorSearch = true) (henc : a.vectorizer = none)
    (hdb : a2.db = a.db) (hv : a2.vectorizer = a.vectorizer)
    (hmax : a2.maxResults = a.maxResults) (hmin : a2.minScore = a.minScore)
    (huse2 : a2.useVectorSearch = false) :
    _process a input
      = Except.map (fun r => { r with search_type := "vector".toList }) (_process a2 input)
    ∧ ∀ (db : DB) (pq : ProcessedQuery),
        performVectorSearch a db pq input = Except.error JsError.vectorizerRequired := by
  constructor
  · simp only [_process, hdb, huse, huse2, henc, hv, Option.isSome_none, Bool.and_false,
      Bool.false_and, Bool.false_eq_true, if_false, if_true]
    cases hdb2 : a.db with
    | none => simp [Except.map]
    | some db =>
      simp only [processQuery, henc, hv]
      simp only [performTextSearch, hmax, rankResults, hmin, Except.map]
  · intro db pq
    simp only [performVectorSearch, henc]

/-- C1 (witness): the amended statement at the concrete configuration
`agentNoEnc` (vector search requested, no encoder) versus `agentText`
(the same engine configured for text search). -/
theorem claim_C1_witness :
    (_process agentNoEnc inputTest
      = Except.map (fun r => { r with search_type := "vector".toList })
          (_process agentText inputTest))
    ∧ performVectorSearch agentNoEnc dbEmptyStore pqTestVal inputTest
      = Except.error JsError.vectorizerRequired :=
  ⟨(claim_C1_amended agentNoEnc agentText inputTest rfl rfl rfl rfl rfl rfl rfl).1,
   (claim_C1_amended agentNoEnc agentText inputTest rfl rfl rfl rfl rfl rfl rfl).2
     dbEmptyStore pqTestVal⟩

/-! ## Claim C2 -/

/-- C2 (counterexample): the brute-force vector search over a store
whose only document lacks an embedding.  The engine computes the
embedding `[1]` and scores the document with it (cosine `1`), but the
store state it hands back is unchanged (`dbNoEmb`), whose document
still has `vector_embedding = none` — nothing is persisted for reuse by
later searches, refuting the claimed compute-if-absent persistence. -/
theorem claim_C2_counterexample :
    performInMemoryVectorSearch agentBackfill encConst dbNoEmb pqTestVal inputTest
      = Except.ok ([scoredFilled], dbNoEmb)
    ∧ docNoEmb.vector_embedding = none :=
  ⟨inMemSearch_backfill, rfl⟩

/-- C2 (amended): in the brute-force vector path, a candidate lacking
an embedding gets one computed by the encoder and attached to its
in-memory copy, which is then used for scoring — every scored candidate
carries an embedding — but the store is never written: the store state
after a successful in-memory search equals the store state before, so
later searches over the same store must recompute the embedding. -/
theorem claim_C2_amended (a : SearchAgent) (enc : Vectorizer) (db : DB)
    (pq : ProcessedQuery) (input : SearchInput) (res : List Scored) (db' : DB)
    (h : performInMemoryVectorSearch a enc db pq input = Except.ok (res, db')) :
    db' = db ∧ ∀ r ∈ res, r.doc.vector_embedding.isSome := by
  obtain ⟨h1, -, h3⟩ := inMemorySearch_ok a enc db pq input res db' h
  exact ⟨h1, fun r hr => (h3 r hr).2⟩

/-- C2 (witness): the amended statement at the concrete backfill run. -/
theorem claim_C2_witness :
    dbNoEmb = dbNoEmb ∧ ∀ r ∈ [scoredFilled], r.doc.vector_embedding.isSome :=
  claim_C2_amended agentBackfill encConst dbNoEmb pqTestVal inputTest [scoredFilled] dbNoEmb
    inMemSearch_backfill

/-! ## Claim C3 -/

/-- C3 (counterexample): a valid search request against an engine whose
store is unavailable (`db = null`) is answered with the thrown error
`Database connection required for search` — a hard failure surfaced to
the caller, not an empty result set. -/
theorem claim_C3_counterexample :
    process agentNoDb inputTest = Except.error JsError.dbRequired := by
  rfl

/-- C3 (amended): an unavailable document store is a hard failure: for
every engine with no store configured, `_process` throws
`Database connection required for search` (and an error thrown by the
store during `find` would equally propagate — the engine catches
nothing); the engine never degrades to an empty result set. -/
theorem claim_C3_amended (a : SearchAgent) (input : SearchInput) (h : a.db = none) :
    _process a input = Except.error JsError.dbRequired := by
  simp only [_process, h]

/-- C3 (witness): the amended statement at the concrete store-less
engine. -/
theorem claim_C3_witness :
    _process agentNoDb inputTest = Except.error JsError.dbRequired :=
  claim_C3_amended agentNoDb inputTest rfl

/-! ## Claim C4 -/

/-- C4 (counterexample): a store with two documents, one already
embedded and one whose text the encoder rejects.  The whole search
fails with the encoder's error — the caller gets no results at all,
although `docGoodEmb` carried an embedding and could have been scored.
This refutes the claim that an encoding failure only excludes the one
document. -/
theorem claim_C4_counterexample :
    _process agentFailEnc inputTest = Except.error (JsError.encodeFailed "boom".toList)
    ∧ docGoodEmb.vector_embedding.isSome := by
  constructor
  · rfl
  · rfl

/-- C4 (amended): during embedding backfill in the brute-force vector
path, a failure to encode any single candidate document is fatal to the
whole search: `Promise.all` rejects, the error propagates, and no
results are returned for the remaining documents. -/
theorem claim_C4_amended (a : SearchAgent) (enc : Vectorizer) (db : DB)
    (pq : ProcessedQuery) (input : SearchInput) (doc : StoredDoc) (e : Str)
    (hdoc : doc ∈ (db.docs.filter (filterMatch input.filters)).take 1000)
    (hemb : doc.vector_embedding = none)
    (henc : enc (doc.output.extracted_text.getD []) = Except.error e) :
    ∃ e', performInMemoryVectorSearch a enc db pq input = Except.error e' := by
  have hfail : backfillDoc enc doc = Except.error (JsError.encodeFailed e) := by
    simp only [backfillDoc, hemb, henc]
  rcases mapME_error_of_mem (backfillDoc enc) _ ⟨doc, hdoc, _, hfail⟩ with ⟨e', he'⟩
  exact ⟨e', by simp only [performInMemoryVectorSearch, he']⟩

/-- C4 (witness): the amended statement at the concrete two-document
store with the failing encoder. -/
theorem claim_C4_witness :
    ∃ e', performInMemoryVectorSearch agentFailEnc encFail dbTwoDocs pqTestVal inputTest
      = Except.error e' :=
  claim_C4_amended agentFailEnc encFail dbTwoDocs pqTestVal inputTest docBadText
    "boom".toList (by simp [dbTwoDocs, inputTest, filterMatch]) rfl rfl

/-! ## Claim C5 (counterexample and witness; the amended theorem is above) -/

/-- C5 (counterexample): two engine runs returning result sets that
violate "every result score lies in `[0, 1]`" as stated.  First, with a
configured `minScore = -1` (a truthy value the constructor keeps), the
brute-force vector strategy returns a result with score `-1 < 0`.
Second, with a store advertising a vector index, the delegated-index
strategy passes the store's native score `2 > 1` through unclamped. -/
theorem claim_C5_counterexample :
    ((_process agentNegMin inputTest).map (fun r => r.results.map (fun rr => rr.score))
        = Except.ok [some (-1)]
      ∧ ¬((-1 : ℝ) ∈ Set.Icc (0 : ℝ) 1))
    ∧ ((_process agentIdx inputTest).map (fun r => r.results.map (fun rr => rr.score))
        = Except.ok [some 2]
      ∧ ¬((2 : ℝ) ∈ Set.Icc (0 : ℝ) 1)) :=
  ⟨⟨process_negMin_scores, by norm_num⟩, ⟨process_idx_scores, by norm_num⟩⟩

/-- C5 (witness): the amended invariants at a concrete successful text
run over the empty store. -/
theorem claim_C5_witness :
    (∀ r ∈ ([] : List RankedResult), ∃ x : ℝ, r.score = some x ∧ 0 ≤ x ∧ x ≤ 1)
    ∧ (([] : List RankedResult).map (fun r => r.score)).Chain' jsNumGeProp
    ∧ ([] : List RankedResult).length ≤ agentText.maxResults
    ∧ ∀ r ∈ ([] : List RankedResult), r.snippets.length ≤ 3
        ∧ r.snippets.Chain' (fun s1 s2 => s2.score ≤ s1.score) :=
  claim_C5_amended agentText dbEmptyStore inputTest []
    (by norm_num [agentText, mkSearchAgent]) rfl rfl process_emptyStore_results

/-! ## Claim C6 -/

/-- C6: the text-scoring bug.  For the query `"ab"` — whose tokens are
all of length `≤ 2`, so the extracted keyword list is empty — and any
document with nonempty extracted text, `calculateTextScore` computes
`0/0 = NaN` (the keyword term divides by `keywords.length` without the
emptiness guard the entity term has), and `Math.min(1, NaN)` is `NaN`;
the claimed formula would give the number
`min 1 (0.5·0 + 0.3·0 + 0) = 0` here.  The NaN score then fails every
`>= minScore` comparison, so such documents are always dropped. -/
theorem claim_C6 :
    processQuery agentNoDb "ab".toList = Except.ok pqABVal
    ∧ calculateTextScore docXyz pqABVal = none :=
  ⟨rfl, rfl⟩

/-! ## Claim C7 -/

/-- C7: the cosine-similarity function is symmetric on equal-length
vectors, equals `1` on any non-zero vector paired with itself, and
returns `0` whenever either input has zero magnitude. -/
theorem claim_C7 :
    (∀ v1 v2 : List ℝ, v1.length = v2.length →
        calculateCosineSimilarity (some v1) (some v2)
          = calculateCosineSimilarity (some v2) (some v1))
    ∧ (∀ v : List ℝ, (∃ x ∈ v, x ≠ 0) → calculateCosineSimilarity (some v) (some v) = 1)
    ∧ (∀ v1 v2 : List ℝ, magL v1 = 0 ∨ magL v2 = 0 →
        calculateCosineSimilarity (some v1) (some v2) = 0) := by
  refine ⟨?_, ?_, ?_⟩
  · intro v1 v2 h
    have hne1 : ¬(v1.length ≠ v2.length) := by simp [h]
    have hne2 : ¬(v2.length ≠ v1.length) := by simp [h]
    rw [calculateCosineSimilarity, calculateCosineSimilarity, if_neg hne1, if_neg hne2]
    by_cases hz : magL v1 = 0 ∨ magL v2 = 0
    · rw [if_pos hz, if_pos (Or.symm hz)]
    · rw [if_neg hz, if_neg (fun hcon => hz (Or.symm hcon))]
      rw [dotL_comm, mul_comm]
  · intro v h
    have hpos : 0 < magSq v := magSq_pos v h
    have hmag : magL v ≠ 0 := by
      rw [magL]
      exact ne_of_gt (Real.sqrt_pos.mpr hpos)
    rw [calculateCosineSimilarity]
    rw [if_neg (by simp)]
    rw [if_neg (by rintro (h' | h') <;> exact hmag h')]
    rw [dotL_self]
    rw [magL, Real.mul_self_sqrt (le_of_lt hpos)]
    exact div_self (ne_of_gt hpos)
  · intro v1 v2 h
    rw [calculateCosineSimilarity]
    by_cases hlen : v1.length ≠ v2.length
    · rw [if_pos hlen]
    · rw [if_neg hlen, if_pos h]

/-- C7 (witness): the three properties at concrete vectors. -/
theorem claim_C7_witness :
    calculateCosineSimilarity (some [(1 : ℝ), 2]) (some [3, 4])
      = calculateCosineSimilarity (some [(3 : ℝ), 4]) (some [1, 2])
    ∧ calculateCosineSimilarity (some [(2 : ℝ)]) (some [(2 : ℝ)]) = 1
    ∧ calculateCosineSimilarity (some [(0 : ℝ)]) (some [(5 : ℝ)]) = 0 :=
  ⟨claim_C7.1 [1, 2] [3, 4] rfl,
   claim_C7.2.1 [2] ⟨2, by simp, by norm_num⟩,
   claim_C7.2.2 [0] [5] (Or.inl (by norm_num [magL, magSq]))⟩

/-! ## Claim C8 -/

/-- C8 (counterexample): the query `"x_yz"`.  The engine's `\w` class
keeps the underscore, so the extracted keyword is `"x_yz"` — not an
alphanumeric token; stripping every non-alphanumeric character, as the
claim states, would instead give the keyword `"xyz"`.  The extracted
list differs from the claimed one, and the extracted keyword contains a
non-alphanumeric character, so the claim as stated is false. -/
theorem claim_C8_counterexample :
    keywordsOf "x_yz".toList = ["x_yz".toList]
    ∧ specKeywordsStrict "x_yz".toList = ["xyz".toList]
    ∧ ¬(∀ k ∈ keywordsOf "x_yz".toList, ∀ c ∈ k, c.isAlphanum = true) := by
  decide

/-- C8 (amended): for every query, the extracted keyword list is
exactly the tokens of length `> 2` obtained from the whitespace-split
normalized (lowercased) query by removing from each token every
character outside the word class `[a-z0-9_]` (so underscores are kept,
unlike strictly alphanumeric stripping); consequently every keyword is
longer than two characters and consists only of non-uppercase word
characters. -/
theorem claim_C8_amended (q : Str) :
    keywordsOf q
      = ((jsSplitRuns jsIsSpace (lowerStr q)).map (fun t => t.filter isWordChar)).filter
          (fun t => t.length > 2)
    ∧ ∀ k ∈ keywordsOf q, k.length > 2 ∧ ∀ c ∈ k, isWordChar c = true ∧ c.isUpper = false := by
  constructor
  · rw [keywordsOf, jsSplitRuns, jsSplitRuns]
    have := jsSplitGo_filter_comm jsIsSpace isWordChar (lowerStr q) [] false false
      (by simp) (by simp) (by simp)
    simpa using this
  · exact keywordsOf_shape q

/-- C8 (witness): the amended statement at the concrete query
`"x_yz ab cde"`. -/
theorem claim_C8_witness :
    keywordsOf "x_yz ab cde".toList
      = ((jsSplitRuns jsIsSpace (lowerStr "x_yz ab cde".toList)).map
          (fun t => t.filter isWordChar)).filter (fun t => t.length > 2)
    ∧ "x_yz".toList.length > 2
    ∧ ∀ c ∈ "x_yz".toList, isWordChar c = true ∧ c.isUpper = false :=
  ⟨(claim_C8_amended "x_yz ab cde".toList).1,
   (claim_C8_amended "x_yz ab cde".toList).2 "x_yz".toList (by decide)⟩

/-! ## Claim C9 -/

/-- C9: a missing or empty query is rejected with the InvalidQuery
error (`Search query is required`) before any I/O: the outcome is the
same for every engine configuration — in particular also when no store
or encoder is configured at all, so neither can have been touched. -/
theorem claim_C9 (a : SearchAgent) (input : SearchInput)
    (h : input.query = none ∨ input.query = some []) :
    process a input = Except.error JsError.queryRequired
    ∧ ∀ a2 : SearchAgent, process a2 input = process a input := by
  have hv : validateInput input = some JsError.queryRequired := by
    rcases h with h | h <;> simp [validateInput, h]
  exact ⟨by simp only [process, hv], fun a2 => by simp only [process, hv]⟩

/-- C9 (witness): the empty-string query against the store-less
engine. -/
theorem claim_C9_witness :
    process agentNoDb inputEmptyQ = Except.error JsError.queryRequired
    ∧ ∀ a2 : SearchAgent, process a2 inputEmptyQ = process agentNoDb inputEmptyQ :=
  claim_C9 agentNoDb inputEmptyQ (Or.inr rfl)

/-! ## Claim C10 -/

/-- C10: the constructor substitutes the defaults for the falsy
configuration values `minScore = 0` and `maxResults = 0` (so a zero
minimum score or a zero result cap cannot be configured), and keeps
every truthy (nonzero) provided value as-is. -/
theorem claim_C10 :
    (∀ o : AgentOptions, o.minScore = some 0 → (mkSearchAgent o).minScore = 1/2)
    ∧ (∀ o : AgentOptions, o.maxResults = some 0 → (mkSearchAgent o).maxResults = 10)
    ∧ (∀ (o : AgentOptions) (q : ℚ), o.minScore = some q → q ≠ 0 →
        (mkSearchAgent o).minScore = q)
    ∧ (∀ (o : AgentOptions) (n : ℕ), o.maxResults = some n → n ≠ 0 →
        (mkSearchAgent o).maxResults = n)
    ∧ ∀ o : AgentOptions, (mkSearchAgent o).minScore ≠ 0 ∧ (mkSearchAgent o).maxResults ≠ 0 := by
  refine ⟨?_, ?_, ?_, ?_, ?_⟩
  · intro o h
    simp [mkSearchAgent, h]
  · intro o h
    simp [mkSearchAgent, h]
  · intro o q h hq
    simp [mkSearchAgent, h, hq]
  · intro o n h hn
    simp [mkSearchAgent, h, hn]
  · intro o
    constructor
    · cases hm : o.minScore with
      | none => simp [mkSearchAgent, hm]
      | some q =>
        simp only [mkSearchAgent, hm]
        by_cases hq : q = 0
        · rw [if_pos hq]; norm_num
        · rw [if_neg hq]; exact hq
    · cases hm : o.maxResults with
      | none => simp [mkSearchAgent, hm]
      | some n =>
        simp only [mkSearchAgent, hm]
        by_cases hn : n = 0
        · rw [if_pos hn]; norm_num
        · rw [if_neg hn]; exact hn

/-- C10 (witness): the constructor rules at concrete options. -/
theorem claim_C10_witness :
    (mkSearchAgent { minScore := some 0 }).minScore = 1/2
    ∧ (mkSearchAgent { maxResults := some 0 }).maxResults = 10
    ∧ (mkSearchAgent { minScore := some (3/4) }).minScore = 3/4
    ∧ (mkSearchAgent { maxResults := some 7 }).maxResults = 7
    ∧ (mkSearchAgent {}).minScore ≠ 0 ∧ (mkSearchAgent {}).maxResults ≠ 0 :=
  ⟨claim_C10.1 _ rfl, claim_C10.2.1 _ rfl,
   claim_C10.2.2.1 _ (3/4) rfl (by norm_num),
   claim_C10.2.2.2.1 _ 7 rfl (by norm_num),
   claim_C10.2.2.2.2 _⟩
